import Mathlib

set_option autoImplicit false

/-!
Verification of the TSDuck multi-threaded plugin pipeline core
(`ts::tsp::PluginExecutor`), the bitrate-monitor plugin
(`ts::BitrateMonitorPlugin`), and the logical-channel-number store
(`ts::LogicalChannelNumbers`), shallowly embedded from the C++ sources.

The executor ring is modelled as a function from stage indices to stage
records; mutation under the shared mutex becomes sequential functional
update in exactly the order of the C++ statements.  Machine integers are
modelled as `Nat` (all the quantities involved are non-negative sizes,
indices and counters); `BitRate` values are modelled as exact rationals.
-/

namespace TSDuck

/-- The three kinds of plugins (`ts::PluginType`). -/
inductive PluginType
  | input
  | processor
  | output
deriving DecidableEq, Repr

/-- The window state of one executor stage, i.e. the fields of
`ts::tsp::PluginExecutor` (and its `TSP` superclass) that the window
protocol reads and writes under the global mutex. -/
structure Stage where
  pkt_first : Nat
  pkt_cnt : Nat
  input_end : Bool
  tsp_aborting : Bool
  bitrate : Nat
  br_confidence : Nat
deriving DecidableEq, Repr

/-- The ring of `n` executor stages sharing one circular packet buffer of
capacity `bufferCount` (the C++ `_buffer->count()`).  `ptype i` is the
plugin type of stage `i`; `stage i` its mutable window state. -/
structure Ring (n : Nat) where
  bufferCount : Nat
  ptype : Fin n → PluginType
  stage : Fin n → Stage

/-- `ringNext<PluginExecutor>()`: the downstream successor in the ring. -/
def ringNext {n : Nat} (i : Fin n) : Fin n :=
  ⟨(i.val + 1) % n, Nat.mod_lt _ i.pos⟩

/-- `ringPrevious<PluginExecutor>()`: the upstream predecessor in the ring. -/
def ringPrev {n : Nat} (i : Fin n) : Fin n :=
  ⟨(i.val + (n - 1)) % n, Nat.mod_lt _ i.pos⟩

/-- Update the stage map at one index. -/
def updStage {n : Nat} (f : Fin n → Stage) (i : Fin n) (g : Stage → Stage) :
    Fin n → Stage :=
  Function.update f i (g (f i))

/-- `ts::tsp::PluginExecutor::passPackets(count, bitrate, br_confidence,
input_end, aborted)` called by stage `i`, translated statement by
statement.  Returns the new ring and the boolean result
(`!input_end && !aborted` after the abort propagation step). -/
def passPackets {n : Nat} (r : Ring n) (i : Fin n) (count : Nat)
    (bitrate br_confidence : Nat) (input_end aborted : Bool) :
    Ring n × Bool :=
  -- _pkt_first = (_pkt_first + count) % _buffer->count(); _pkt_cnt -= count;
  let st1 := updStage r.stage i fun s =>
    { s with pkt_first := (s.pkt_first + count) % r.bufferCount,
             pkt_cnt := s.pkt_cnt - count }
  -- next->_pkt_cnt += count; next->_bitrate = bitrate;
  -- next->_br_confidence = br_confidence;
  -- next->_input_end = next->_input_end || input_end;
  let st2 := updStage st1 (ringNext i) fun s =>
    { s with pkt_cnt := s.pkt_cnt + count,
             bitrate := bitrate,
             br_confidence := br_confidence,
             input_end := s.input_end || input_end }
  -- if (plugin()->type() != PluginType::OUTPUT)
  --     aborted = aborted || next->_tsp_aborting;
  let aborted2 :=
    if r.ptype i ≠ PluginType.output then
      aborted || (st2 (ringNext i)).tsp_aborting
    else aborted
  -- if (aborted) { _tsp_aborting = true; ... }
  let st3 :=
    if aborted2 then updStage st2 i fun s => { s with tsp_aborting := true }
    else st2
  -- return !input_end && !aborted;
  ({ r with stage := st3 }, !input_end && !aborted2)

/-- `ts::tsp::PluginExecutor::setAbort()` on stage `i`:
`_tsp_aborting = true` (the notification carries no state). -/
def setAbort {n : Nat} (r : Ring n) (i : Fin n) : Ring n :=
  { r with stage := updStage r.stage i fun s => { s with tsp_aborting := true } }

/-- The effective abort flag computed inside `passPackets`: the passed
`aborted`, OR-ed with `next->_tsp_aborting` when the calling stage is not
the output stage. -/
def effAborted {n : Nat} (r : Ring n) (i : Fin n) (aborted : Bool) : Bool :=
  if r.ptype i ≠ PluginType.output then
    aborted || (r.stage (ringNext i)).tsp_aborting
  else aborted

theorem updStage_self {n : Nat} (f : Fin n → Stage) (i : Fin n)
    (g : Stage → Stage) : updStage f i g i = g (f i) := by
  simp [updStage]

theorem updStage_other {n : Nat} (f : Fin n → Stage) (i j : Fin n)
    (g : Stage → Stage) (h : j ≠ i) : updStage f i g j = f j := by
  simp [updStage, Function.update_noteq h]

/-- In `passPackets`, the re-read of `next->_tsp_aborting` after the window
updates sees the original value: no statement before it writes that field. -/
theorem passPackets_aborted2 {n : Nat} (r : Ring n) (i : Fin n)
    (count bitrate br_confidence : Nat) (input_end aborted : Bool) :
    (if r.ptype i ≠ PluginType.output then
        aborted ||
          ((updStage
              (updStage r.stage i fun s =>
                { s with pkt_first := (s.pkt_first + count) % r.bufferCount,
                         pkt_cnt := s.pkt_cnt - count })
              (ringNext i) fun s =>
                { s with pkt_cnt := s.pkt_cnt + count,
                         bitrate := bitrate,
                         br_confidence := br_confidence,
                         input_end := s.input_end || input_end })
            (ringNext i)).tsp_aborting
      else aborted) = effAborted r i aborted := by
  rw [effAborted]
  by_cases hj : ringNext i = i
  · rw [updStage_self, hj, updStage_self]
  · rw [updStage_self, updStage_other _ _ _ _ hj]

/-- Effect of `passPackets` on the calling stage's own record. -/
theorem passPackets_stage_self {n : Nat} (r : Ring n) (i : Fin n)
    (count bitrate br_confidence : Nat) (input_end aborted : Bool)
    (hne : ringNext i ≠ i) :
    (passPackets r i count bitrate br_confidence input_end aborted).1.stage i =
      { r.stage i with
          pkt_first := ((r.stage i).pkt_first + count) % r.bufferCount,
          pkt_cnt := (r.stage i).pkt_cnt - count,
          tsp_aborting :=
            (r.stage i).tsp_aborting || effAborted r i aborted } := by
  show (if _ then _ else _ : Fin n → Stage) i = _
  rw [passPackets_aborted2 r i count bitrate br_confidence input_end aborted]
  rcases hab : effAborted r i aborted with _ | _
  · simp only [Bool.false_eq_true, if_false, Bool.or_false]
    rw [updStage_other _ _ _ _ (Ne.symm hne), updStage_self]
  · simp only [if_true, Bool.or_true]
    rw [updStage_self, updStage_other _ _ _ _ (Ne.symm hne),
      updStage_self]

/-- Effect of `passPackets` on the downstream stage's record. -/
theorem passPackets_stage_next {n : Nat} (r : Ring n) (i : Fin n)
    (count bitrate br_confidence : Nat) (input_end aborted : Bool)
    (hne : ringNext i ≠ i) :
    (passPackets r i count bitrate br_confidence input_end aborted).1.stage
        (ringNext i) =
      { r.stage (ringNext i) with
          pkt_cnt := (r.stage (ringNext i)).pkt_cnt + count,
          bitrate := bitrate,
          br_confidence := br_confidence,
          input_end := (r.stage (ringNext i)).input_end || input_end } := by
  show (if _ then _ else _ : Fin n → Stage) (ringNext i) = _
  rw [passPackets_aborted2 r i count bitrate br_confidence input_end aborted]
  rcases effAborted r i aborted with _ | _
  · simp only [Bool.false_eq_true, if_false]
    rw [updStage_self, updStage_other _ _ _ _ hne]
  · simp only [if_true]
    rw [updStage_other _ _ _ _ hne, updStage_self,
      updStage_other _ _ _ _ hne]

/-- `passPackets` leaves every stage other than the caller and its
successor untouched. -/
theorem passPackets_stage_other {n : Nat} (r : Ring n) (i j : Fin n)
    (count bitrate br_confidence : Nat) (input_end aborted : Bool)
    (hji : j ≠ i) (hjn : j ≠ ringNext i) :
    (passPackets r i count bitrate br_confidence input_end aborted).1.stage j =
      r.stage j := by
  show (if _ then _ else _ : Fin n → Stage) j = _
  rcases (if r.ptype i ≠ PluginType.output then _ else aborted : Bool) with _ | _
  · simp only [Bool.false_eq_true, if_false]
    rw [updStage_other _ _ _ _ hjn, updStage_other _ _ _ _ hji]
  · simp only [if_true]
    rw [updStage_other _ _ _ _ hji, updStage_other _ _ _ _ hjn,
      updStage_other _ _ _ _ hji]

/-- `passPackets` leaves the buffer capacity and the plugin types alone. -/
theorem passPackets_bufferCount {n : Nat} (r : Ring n) (i : Fin n)
    (count bitrate br_confidence : Nat) (input_end aborted : Bool) :
    (passPackets r i count bitrate br_confidence input_end aborted).1.bufferCount
        = r.bufferCount ∧
    (passPackets r i count bitrate br_confidence input_end aborted).1.ptype
        = r.ptype := ⟨rfl, rfl⟩

/-- The boolean returned by `passPackets`. -/
theorem passPackets_snd {n : Nat} (r : Ring n) (i : Fin n)
    (count bitrate br_confidence : Nat) (input_end aborted : Bool) :
    (passPackets r i count bitrate br_confidence input_end aborted).2 =
      (!input_end && !effAborted r i aborted) := by
  simp only [passPackets]
  rw [passPackets_aborted2 r i count bitrate br_confidence input_end aborted]

/-- A concrete three-stage pipeline (input, one processor, output), used
to instantiate the general theorems. -/
def sampleTypes3 : Fin 3 → PluginType := fun i =>
  if i = 0 then PluginType.input
  else if i = 1 then PluginType.processor
  else PluginType.output

/-- A concrete window state for the three-stage pipeline over a buffer of
8 slots: the input stage owns the whole buffer. -/
def sampleStages3 : Fin 3 → Stage := fun i =>
  if i = 0 then ⟨0, 8, false, false, 0, 0⟩ else ⟨0, 0, false, false, 0, 0⟩

/-- The concrete three-stage ring. -/
def sampleRing3 : Ring 3 :=
  { bufferCount := 8, ptype := sampleTypes3, stage := sampleStages3 }

/-- C1: for every stage `s` and every call
`passPackets(count, bitrate, conf, input_end, aborted)` with
`count <= s.count`, the call sets `s.first` to `(s.first + count) mod B`,
decreases `s.count` by `count`, increases `next(s).count` by `count`,
overwrites `next(s)`'s bitrate and confidence with the passed values,
OR-accumulates `input_end` into `next(s).input_end`, and returns `true`
iff `input_end` is false and the effective aborted flag (the passed
`aborted`, OR-ed with `next(s).aborting` when `s` is not the output
stage) is false. -/
theorem passPackets_spec {n : Nat} (r : Ring n) (i : Fin n)
    (count bitrate br_confidence : Nat) (input_end aborted : Bool)
    (hcount : count ≤ (r.stage i).pkt_cnt) (hne : ringNext i ≠ i) :
    ((passPackets r i count bitrate br_confidence input_end aborted).1.stage
        i).pkt_first = ((r.stage i).pkt_first + count) % r.bufferCount ∧
    ((passPackets r i count bitrate br_confidence input_end aborted).1.stage
        i).pkt_cnt + count = (r.stage i).pkt_cnt ∧
    ((passPackets r i count bitrate br_confidence input_end aborted).1.stage
        (ringNext i)).pkt_cnt = (r.stage (ringNext i)).pkt_cnt + count ∧
    ((passPackets r i count bitrate br_confidence input_end aborted).1.stage
        (ringNext i)).bitrate = bitrate ∧
    ((passPackets r i count bitrate br_confidence input_end aborted).1.stage
        (ringNext i)).br_confidence = br_confidence ∧
    ((passPackets r i count bitrate br_confidence input_end aborted).1.stage
        (ringNext i)).input_end
      = ((r.stage (ringNext i)).input_end || input_end) ∧
    ((passPackets r i count bitrate br_confidence input_end aborted).2 = true
      ↔ (input_end = false ∧ effAborted r i aborted = false)) := by
  rw [passPackets_stage_self r i count bitrate br_confidence input_end aborted
      hne,
    passPackets_stage_next r i count bitrate br_confidence input_end aborted
      hne,
    passPackets_snd r i count bitrate br_confidence input_end aborted]
  refine ⟨rfl, ?_, rfl, rfl, rfl, rfl, ?_⟩
  · show (r.stage i).pkt_cnt - count + count = (r.stage i).pkt_cnt
    omega
  · rcases input_end with _ | _ <;>
      rcases effAborted r i aborted with _ | _ <;> simp

/-- Witness for C1: the input stage of the concrete three-stage ring
passes 3 of its 8 packets downstream. -/
theorem passPackets_spec_witness :
    ((passPackets sampleRing3 0 3 17 1 false false).1.stage
        (ringNext 0)).pkt_cnt = (sampleRing3.stage (ringNext 0)).pkt_cnt + 3 ∧
    ((passPackets sampleRing3 0 3 17 1 false false).1.stage 0).pkt_first
      = ((sampleRing3.stage 0).pkt_first + 3) % sampleRing3.bufferCount :=
  ⟨(passPackets_spec sampleRing3 0 3 17 1 false false (by decide)
      (by decide)).2.2.1,
   (passPackets_spec sampleRing3 0 3 17 1 false false (by decide)
      (by decide)).1⟩

/-- Modelled from the spec: the initial window configuration that the
pipeline start-up code (missing from the sources; only `initBuffer`
itself is present, and it merely copies its arguments into the stage)
installs through `initBuffer` before any worker thread starts: the input
stage (index 0) receives the whole buffer as its window, with
`input_end = false` and `aborted = false`; every other stage receives
`count = 0` and `first` at the position immediately following its
predecessor's window, which is slot 0 for every stage since the input
window is the full buffer. -/
def initStages (n B : Nat) : Fin n → Stage := fun i =>
  if i.val = 0 then ⟨0, B, false, false, 0, 0⟩ else ⟨0, 0, false, false, 0, 0⟩

/-- The freshly initialized ring over a buffer of `B` slots. -/
def initRing (n B : Nat) (tp : Fin n → PluginType) : Ring n :=
  { bufferCount := B, ptype := tp, stage := initStages n B }

/-- The ring states reachable under the shared mutex: the state
established through `initBuffer`, transformed by `passPackets` calls
that respect the `assert(count <= _pkt_cnt)` precondition. -/
inductive Reachable {n : Nat} : Ring n → Prop
  | init (B : Nat) (tp : Fin n → PluginType) : Reachable (initRing n B tp)
  | step (r : Ring n) (i : Fin n) (count bitrate br_confidence : Nat)
      (input_end aborted : Bool) :
      Reachable r → count ≤ (r.stage i).pkt_cnt →
      Reachable (passPackets r i count bitrate br_confidence input_end
        aborted).1

theorem ringNext_ne {n : Nat} (h2 : 2 ≤ n) (i : Fin n) : ringNext i ≠ i := by
  intro h
  have hv : (i.val + 1) % n = i.val := congrArg Fin.val h
  have hi := i.isLt
  rcases Nat.lt_or_ge (i.val + 1) n with hlt | hge
  · rw [Nat.mod_eq_of_lt hlt] at hv
    omega
  · have hn : i.val + 1 = n := by omega
    rw [hn, Nat.mod_self] at hv
    omega

theorem ringPrev_ringNext {n : Nat} (i : Fin n) : ringPrev (ringNext i) = i := by
  have hpos := i.pos
  apply Fin.ext
  show ((i.val + 1) % n + (n - 1)) % n = i.val
  rw [Nat.mod_add_mod]
  have h : i.val + 1 + (n - 1) = i.val + n := by omega
  rw [h, Nat.add_mod_right, Nat.mod_eq_of_lt i.isLt]

theorem ringNext_ringPrev {n : Nat} (i : Fin n) : ringNext (ringPrev i) = i := by
  have hpos := i.pos
  apply Fin.ext
  show ((i.val + (n - 1)) % n + 1) % n = i.val
  rw [Nat.mod_add_mod]
  have h : i.val + (n - 1) + 1 = i.val + n := by omega
  rw [h, Nat.add_mod_right, Nat.mod_eq_of_lt i.isLt]

theorem ringPrev_ne {n : Nat} (h2 : 2 ≤ n) (i : Fin n) : ringPrev i ≠ i := by
  intro h
  exact ringNext_ne h2 (ringPrev i) (by rw [ringNext_ringPrev, h])

theorem ringPrev_eq_iff {n : Nat} (i j : Fin n) :
    ringPrev j = i ↔ j = ringNext i := by
  constructor
  · intro h
    rw [← ringNext_ringPrev j, h]
  · intro h
    rw [h, ringPrev_ringNext]

/-- `passPackets` preserves the two window-accounting invariants: the
total of all window counts, and the contiguity of each window with its
ring predecessor's window. -/
theorem passPackets_preserves_windows {n : Nat} (h2 : 2 ≤ n) (r : Ring n)
    (i : Fin n) (count bitrate br_confidence : Nat) (input_end aborted : Bool)
    (hcount : count ≤ (r.stage i).pkt_cnt)
    (hsum : (∑ j, (r.stage j).pkt_cnt) = r.bufferCount)
    (hcontig : ∀ j, ((r.stage j).pkt_first + (r.stage j).pkt_cnt) %
      r.bufferCount = (r.stage (ringPrev j)).pkt_first) :
    (∑ j, ((passPackets r i count bitrate br_confidence input_end
        aborted).1.stage j).pkt_cnt) = r.bufferCount ∧
    ∀ j, (((passPackets r i count bitrate br_confidence input_end
        aborted).1.stage j).pkt_first +
      ((passPackets r i count bitrate br_confidence input_end
        aborted).1.stage j).pkt_cnt) % r.bufferCount =
      ((passPackets r i count bitrate br_confidence input_end
        aborted).1.stage (ringPrev j)).pkt_first := by
  have hne := ringNext_ne h2 i
  set r' := (passPackets r i count bitrate br_confidence input_end aborted).1
    with hr'
  have hself := passPackets_stage_self r i count bitrate br_confidence
    input_end aborted hne
  have hnext := passPackets_stage_next r i count bitrate br_confidence
    input_end aborted hne
  have hother : ∀ j, j ≠ i → j ≠ ringNext i → r'.stage j = r.stage j :=
    fun j hji hjn => passPackets_stage_other r i j count bitrate
      br_confidence input_end aborted hji hjn
  have hcnt_self : (r'.stage i).pkt_cnt = (r.stage i).pkt_cnt - count := by
    rw [hr', hself]
  have hcnt_next : (r'.stage (ringNext i)).pkt_cnt =
      (r.stage (ringNext i)).pkt_cnt + count := by
    rw [hr', hnext]
  have hfirst_self : (r'.stage i).pkt_first =
      ((r.stage i).pkt_first + count) % r.bufferCount := by
    rw [hr', hself]
  have hfirst : ∀ j, j ≠ i → (r'.stage j).pkt_first =
      (r.stage j).pkt_first := by
    intro j hji
    by_cases hjn : j = ringNext i
    · rw [hjn, hr', hnext]
    · rw [hother j hji hjn]
  constructor
  · have hmem1 : i ∈ Finset.univ := Finset.mem_univ i
    have hmem2 : ringNext i ∈ Finset.univ.erase i :=
      Finset.mem_erase.2 ⟨hne, Finset.mem_univ _⟩
    have hd : ∀ (g : Fin n → Stage),
        (∑ j, (g j).pkt_cnt) = (g i).pkt_cnt + ((g (ringNext i)).pkt_cnt +
          ∑ j ∈ (Finset.univ.erase i).erase (ringNext i), (g j).pkt_cnt) := by
      intro g
      rw [Finset.add_sum_erase _ (fun j => (g j).pkt_cnt) hmem2,
        Finset.add_sum_erase _ (fun j => (g j).pkt_cnt) hmem1]
    have hrest : (∑ j ∈ (Finset.univ.erase i).erase (ringNext i),
        (r'.stage j).pkt_cnt) =
        ∑ j ∈ (Finset.univ.erase i).erase (ringNext i),
          (r.stage j).pkt_cnt := by
      refine Finset.sum_congr rfl ?_
      intro j hj
      have hj1 := Finset.mem_erase.1 hj
      have hj2 := Finset.mem_erase.1 hj1.2
      rw [hother j hj2.1 hj1.1]
    rw [hd, hrest, hcnt_self, hcnt_next]
    rw [hd (r.stage)] at hsum
    omega
  · intro j
    by_cases hji : j = i
    · subst hji
      rw [hcnt_self, hfirst_self, hfirst (ringPrev j) (ringPrev_ne h2 j),
        Nat.mod_add_mod]
      have h : (r.stage j).pkt_first + count +
          ((r.stage j).pkt_cnt - count) =
          (r.stage j).pkt_first + (r.stage j).pkt_cnt := by omega
      rw [h]
      exact hcontig j
    · by_cases hjn : j = ringNext i
      · subst hjn
        rw [hcnt_next, hfirst (ringNext i) hne, ringPrev_ringNext,
          hfirst_self]
        have h : (r.stage (ringNext i)).pkt_first +
            ((r.stage (ringNext i)).pkt_cnt + count) =
            (r.stage (ringNext i)).pkt_first +
              (r.stage (ringNext i)).pkt_cnt + count := by omega
        rw [h, ← Nat.mod_add_mod, hcontig (ringNext i), ringPrev_ringNext]
      · have hpj : ringPrev j ≠ i := by
          intro h
          exact hjn ((ringPrev_eq_iff i j).1 h)
        rw [hother j hji hjn, hfirst (ringPrev j) hpj]
        exact hcontig j

/-- A ring state reached from the initial three-stage configuration by a
single `passPackets` call: the input stage passes 3 of its 8 packets. -/
def reachedRing3 : Ring 3 :=
  (passPackets (initRing 3 8 sampleTypes3) 0 3 0 0 false false).1

/-- Counterexample to C2 as stated: in the reachable state where the
input stage has passed 3 packets downstream, the window of stage 1 ends
at slot 3 while its ring successor (the output stage) has `first = 0`,
so `(s.first + s.count) mod B = next(s).first` fails at stage 1. -/
theorem window_contiguity_next_counterexample :
    Reachable reachedRing3 ∧
    ¬ (∀ i : Fin 3, ((reachedRing3.stage i).pkt_first +
        (reachedRing3.stage i).pkt_cnt) % reachedRing3.bufferCount =
        (reachedRing3.stage (ringNext i)).pkt_first) := by
  constructor
  · exact Reachable.step _ 0 3 0 0 false false
      (Reachable.init 8 sampleTypes3) (by decide)
  · decide

/-- C2 (amended): in every state reachable under the shared mutex — the
state established by `initBuffer` and then transformed by `passPackets`
calls with `count <= s.count` — the sum of `count` over all stages equals
the buffer capacity B, and for every stage `s`,
`(s.first + s.count) mod B` equals `prev(s).first`, the window start of
the ring predecessor (not of `next(s)` as claimed): in buffer order each
stage's window is immediately followed by its ring predecessor's window. -/
theorem reachable_window_invariant {n : Nat} (h2 : 2 ≤ n) (r : Ring n)
    (hr : Reachable r) :
    (∑ j, (r.stage j).pkt_cnt) = r.bufferCount ∧
    ∀ j, ((r.stage j).pkt_first + (r.stage j).pkt_cnt) % r.bufferCount =
      (r.stage (ringPrev j)).pkt_first := by
  induction hr with
  | init B tp =>
    have hpos : 0 < n := by omega
    constructor
    · show (∑ j, (initStages n B j).pkt_cnt) = B
      have h0 : (⟨0, hpos⟩ : Fin n) ∈ Finset.univ := Finset.mem_univ _
      rw [← Finset.add_sum_erase _ (fun j => (initStages n B j).pkt_cnt) h0]
      have h1 : (initStages n B ⟨0, hpos⟩).pkt_cnt = B := rfl
      have hz : (∑ j ∈ Finset.univ.erase (⟨0, hpos⟩ : Fin n),
          (initStages n B j).pkt_cnt) = 0 := by
        refine Finset.sum_eq_zero ?_
        intro j hj
        have hj0 := (Finset.mem_erase.1 hj).1
        have hjv : ¬ j.val = 0 := fun h => hj0 (Fin.ext h)
        unfold initStages
        simp [hjv]
      rw [h1, hz]
      omega
    · intro j
      show ((initStages n B j).pkt_first + (initStages n B j).pkt_cnt) % B =
        (initStages n B (ringPrev j)).pkt_first
      have hrhs : (initStages n B (ringPrev j)).pkt_first = 0 := by
        unfold initStages
        split <;> rfl
      rw [hrhs]
      unfold initStages
      split
      · show (0 + B) % B = 0
        simp [Nat.mod_self]
      · show (0 + 0) % B = 0
        simp
  | step r i count bitrate br_confidence input_end aborted hr hcount ih =>
    exact passPackets_preserves_windows h2 r i count bitrate br_confidence
      input_end aborted hcount ih.1 ih.2

/-- Witness for the amended C2: the invariant evaluated on the concrete
reachable three-stage state. -/
theorem reachable_window_invariant_witness :
    (∑ j, (reachedRing3.stage j).pkt_cnt) = reachedRing3.bufferCount ∧
    ((reachedRing3.stage 1).pkt_first + (reachedRing3.stage 1).pkt_cnt) %
        reachedRing3.bufferCount = (reachedRing3.stage (ringPrev 1)).pkt_first :=
  ⟨(reachable_window_invariant (by omega) reachedRing3
      (Reachable.step _ 0 3 0 0 false false
        (Reachable.init 8 sampleTypes3) (by decide))).1,
   (reachable_window_invariant (by omega) reachedRing3
      (Reachable.step _ 0 3 0 0 false false
        (Reachable.init 8 sampleTypes3) (by decide))).2 1⟩

/-- The outputs of `ts::tsp::PluginExecutor::waitWork` (its reference
parameters). -/
structure WaitWorkOut where
  pkt_first : Nat
  pkt_cnt : Nat
  bitrate : Nat
  br_confidence : Nat
  input_end : Bool
  aborted : Bool
  timeout : Bool
deriving DecidableEq, Repr

/-- `ts::tsp::PluginExecutor::waitWork(min_pkt_cnt, ...)` for stage `i`.
The blocking loop is real concurrency; whether the loop ended with
`timeout == true` (a condition-variable timeout on which the plugin's
`handlePacketTimeout()` returned false) is supplied as `timedOut`.  The
clamping of `min_pkt_cnt` and the post-loop computation of the outputs
are translated statement by statement; `waitWork` writes no stage
state. -/
def waitWork {n : Nat} (r : Ring n) (i : Fin n) (min_pkt_cnt : Nat)
    (timedOut : Bool) : WaitWorkOut :=
  -- if (min_pkt_cnt > _buffer->count()) { min_pkt_cnt = _buffer->count(); }
  let m := if min_pkt_cnt > r.bufferCount then r.bufferCount else min_pkt_cnt
  let s := r.stage i
  let next := r.stage (ringNext i)
  let cnt :=
    if timedOut then 0
    else if s.pkt_first + m ≤ r.bufferCount then
      min s.pkt_cnt (r.bufferCount - s.pkt_first)
    else s.pkt_cnt
  { pkt_first := s.pkt_first
    pkt_cnt := cnt
    bitrate := s.bitrate
    br_confidence := s.br_confidence
    -- input_end = _input_end && pkt_cnt == _pkt_cnt;
    input_end := s.input_end && decide (cnt = s.pkt_cnt)
    -- aborted = plugin()->type() != PluginType::OUTPUT && next->_tsp_aborting;
    aborted := decide (r.ptype i ≠ PluginType.output) && next.tsp_aborting
    timeout := timedOut }

/-- The guard of `waitWork`'s waiting loop:
`while (_pkt_cnt < min_pkt_cnt && !_input_end && !timeout &&
!next->_tsp_aborting)`. -/
def waitLoopContinues {n : Nat} (r : Ring n) (i : Fin n) (min_pkt_cnt : Nat)
    (timeout : Bool) : Bool :=
  decide ((r.stage i).pkt_cnt < min_pkt_cnt) && !(r.stage i).input_end &&
    !timeout && !(r.stage (ringNext i)).tsp_aborting

/-- The timeout flag computed by one iteration of `waitWork`'s loop body:
`timeout = _to_do.wait_for(...) == std::cv_status::timeout &&
!plugin()->handlePacketTimeout()`. -/
def timeoutAfterWait (cvTimedOut handlerContinues : Bool) : Bool :=
  cvTimedOut && !handlerContinues

/-- One executor operation on the shared ring state during a pipeline
run: a `passPackets` call (respecting its `assert(count <= _pkt_cnt)`),
a `setAbort` call, or a `waitWork` call, which only reads the window
state. -/
inductive ExecStep {n : Nat} : Ring n → Ring n → Prop
  | pass (r : Ring n) (i : Fin n) (count bitrate br_confidence : Nat)
      (input_end aborted : Bool) :
      count ≤ (r.stage i).pkt_cnt →
      ExecStep r (passPackets r i count bitrate br_confidence input_end
        aborted).1
  | abort (r : Ring n) (i : Fin n) : ExecStep r (setAbort r i)
  | wait (r : Ring n) (i : Fin n) (min_pkt_cnt : Nat) (timedOut : Bool) :
      ExecStep r r

theorem setAbort_stage {n : Nat} (r : Ring n) (i j : Fin n) :
    (setAbort r i).stage j =
      if j = i then { r.stage j with tsp_aborting := true } else r.stage j := by
  show updStage r.stage i (fun s => { s with tsp_aborting := true }) j = _
  by_cases h : j = i
  · subst h
    rw [if_pos rfl, updStage_self]
  · rw [if_neg h, updStage_other _ _ _ _ h]

/-- Evaluation of the packet count returned by `waitWork`. -/
theorem waitWork_pkt_cnt {n : Nat} (r : Ring n) (i : Fin n)
    (min_pkt_cnt : Nat) (timedOut : Bool) :
    (waitWork r i min_pkt_cnt timedOut).pkt_cnt =
      if timedOut then 0
      else if (r.stage i).pkt_first +
          (if min_pkt_cnt > r.bufferCount then r.bufferCount
           else min_pkt_cnt) ≤ r.bufferCount then
        min (r.stage i).pkt_cnt (r.bufferCount - (r.stage i).pkt_first)
      else (r.stage i).pkt_cnt := rfl

/-- Evaluation of the `input_end` output of `waitWork`. -/
theorem waitWork_input_end_eq {n : Nat} (r : Ring n) (i : Fin n)
    (min_pkt_cnt : Nat) (timedOut : Bool) :
    (waitWork r i min_pkt_cnt timedOut).input_end =
      ((r.stage i).input_end &&
        decide ((waitWork r i min_pkt_cnt timedOut).pkt_cnt =
          (r.stage i).pkt_cnt)) := rfl

/-- C3: for every stage, `input_end` and `aborting` are monotonic: every
executor operation (`passPackets`, `waitWork`, `setAbort`) may change
each flag only from false to true, never back. -/
theorem flags_monotonic {n : Nat} (h2 : 2 ≤ n) (r r' : Ring n)
    (h : ExecStep r r') (i : Fin n) :
    ((r.stage i).input_end = true → (r'.stage i).input_end = true) ∧
    ((r.stage i).tsp_aborting = true → (r'.stage i).tsp_aborting = true) := by
  cases h with
  | pass j count bitrate br_confidence input_end aborted hc =>
    have hne := ringNext_ne h2 j
    by_cases hij : i = j
    · subst hij
      rw [passPackets_stage_self r i count bitrate br_confidence input_end
        aborted hne]
      exact ⟨fun h => h, fun h => by simp [h]⟩
    · by_cases hin : i = ringNext j
      · subst hin
        rw [passPackets_stage_next r j count bitrate br_confidence input_end
          aborted hne]
        exact ⟨fun h => by simp [h], fun h => h⟩
      · rw [passPackets_stage_other r j i count bitrate br_confidence
          input_end aborted hij hin]
        exact ⟨fun h => h, fun h => h⟩
  | abort j =>
    rw [setAbort_stage r j i]
    by_cases hij : i = j
    · rw [if_pos hij]
      exact ⟨fun h => h, fun _ => rfl⟩
    · rw [if_neg hij]
      exact ⟨fun h => h, fun h => h⟩
  | wait j m t =>
    exact ⟨fun h => h, fun h => h⟩

/-- Witness for C3: after `setAbort` on stage 1 of the concrete ring, a
further `setAbort` on stage 2 leaves stage 1's `aborting` flag true. -/
theorem flags_monotonic_witness :
    ((setAbort (setAbort sampleRing3 1) 2).stage 1).tsp_aborting = true :=
  (flags_monotonic (by omega) (setAbort sampleRing3 1)
      (setAbort (setAbort sampleRing3 1) 2)
      (ExecStep.abort (setAbort sampleRing3 1) 2) 1).2 (by decide)

/-- C4: when `waitWork` does not end in timeout, the returned packet
count is the contiguous head `min(count, B - pkt_first)` whenever
`pkt_first + min_pkt_cnt <= B`, and the full window `count` (possibly
wrapping) otherwise. -/
theorem waitWork_contiguous_head {n : Nat} (r : Ring n) (i : Fin n)
    (min_pkt_cnt : Nat) (hmin : min_pkt_cnt ≤ r.bufferCount) :
    ((r.stage i).pkt_first + min_pkt_cnt ≤ r.bufferCount →
      (waitWork r i min_pkt_cnt false).pkt_cnt =
        min (r.stage i).pkt_cnt (r.bufferCount - (r.stage i).pkt_first)) ∧
    (r.bufferCount < (r.stage i).pkt_first + min_pkt_cnt →
      (waitWork r i min_pkt_cnt false).pkt_cnt = (r.stage i).pkt_cnt) := by
  have hclamp : (if min_pkt_cnt > r.bufferCount then r.bufferCount
      else min_pkt_cnt) = min_pkt_cnt := by
    rw [if_neg (by omega)]
  rw [waitWork_pkt_cnt, hclamp]
  constructor
  · intro hfit
    rw [if_neg (by simp), if_pos hfit]
  · intro hwrap
    rw [if_neg (by simp), if_neg (by omega)]

/-- A concrete ring whose stage 1 window wraps around the buffer end:
`first = 6`, `count = 4` in a buffer of 8 slots, with `input_end` set. -/
def wrapRing3 : Ring 3 :=
  { bufferCount := 8, ptype := sampleTypes3,
    stage := fun i =>
      if i = 1 then ⟨6, 4, true, false, 0, 0⟩ else ⟨0, 2, false, false, 0, 0⟩ }

/-- Witness for C4: on the wrapped window (`first = 6`, `count = 4`,
`B = 8`) a request for 2 packets returns only the contiguous head
`min(4, 8 - 6) = 2`. -/
theorem waitWork_contiguous_head_witness :
    (waitWork wrapRing3 1 2 false).pkt_cnt =
      min (wrapRing3.stage 1).pkt_cnt
        (wrapRing3.bufferCount - (wrapRing3.stage 1).pkt_first) :=
  (waitWork_contiguous_head wrapRing3 1 2 (by decide)).1 (by decide)

/-- C5: when the wait times out, a plugin timeout handler returning
"continue" leaves the timeout flag false so the loop guard still holds
and the wait resumes; a handler returning "abort" makes the loop exit
with `timeout = true`, and `waitWork` then returns `timeout = true` and
`pkt_cnt = 0`. -/
theorem waitWork_timeout_handler {n : Nat} (r : Ring n) (i : Fin n)
    (min_pkt_cnt : Nat) :
    (waitLoopContinues r i min_pkt_cnt false = true →
      waitLoopContinues r i min_pkt_cnt (timeoutAfterWait true true) = true) ∧
    timeoutAfterWait true false = true ∧
    (waitWork r i min_pkt_cnt (timeoutAfterWait true false)).timeout = true ∧
    (waitWork r i min_pkt_cnt (timeoutAfterWait true false)).pkt_cnt = 0 :=
  ⟨fun h => h, rfl, rfl, rfl⟩

/-- Witness for C5: stage 1 of the concrete ring is starved
(`count = 0 < 2`), so after a benign timeout the wait loop resumes. -/
theorem waitWork_timeout_handler_witness :
    waitLoopContinues sampleRing3 1 2 (timeoutAfterWait true true) = true :=
  (waitWork_timeout_handler sampleRing3 1 2).1 (by decide)

/-- C10: `waitWork` reports `input_end` to its caller iff the stage's
`input_end` flag is set and the returned `pkt_cnt` is the stage's entire
window count; in particular, when only the contiguous head of a wrapped
window is returned, end-of-input is not reported. -/
theorem waitWork_input_end_iff {n : Nat} (r : Ring n) (i : Fin n)
    (min_pkt_cnt : Nat) (timedOut : Bool) :
    ((waitWork r i min_pkt_cnt timedOut).input_end = true ↔
      ((r.stage i).input_end = true ∧
        (waitWork r i min_pkt_cnt timedOut).pkt_cnt =
          (r.stage i).pkt_cnt)) ∧
    ((waitWork r i min_pkt_cnt timedOut).pkt_cnt ≠ (r.stage i).pkt_cnt →
      (waitWork r i min_pkt_cnt timedOut).input_end = false) := by
  rw [waitWork_input_end_eq]
  constructor
  · rcases h : (r.stage i).input_end with _ | _ <;> simp
  · intro hne
    simp only [Bool.and_eq_false_iff, decide_eq_false_iff_not]
    right
    exact hne

/-- Witness for C10: on the wrapped window with `input_end` set, only 2
of the 4 owned packets are returned and end-of-input is not reported. -/
theorem waitWork_input_end_iff_witness :
    (waitWork wrapRing3 1 2 false).input_end = false :=
  (waitWork_input_end_iff wrapRing3 1 2 false).2 (by decide)

/-- Counterexample to C6 as stated: in the concrete three-stage ring the
Output stage (index 2) calls `passPackets` with `input_end = true`, and
the Input stage's `input_end` flag — false beforehand — becomes true:
`next->_input_end = next->_input_end || input_end` is executed
unconditionally, so `input_end` does propagate on the Output→Input
edge. -/
theorem output_edge_counterexample :
    sampleRing3.ptype 2 = PluginType.output ∧
    ringNext (2 : Fin 3) = 0 ∧
    (sampleRing3.stage 0).input_end = false ∧
    ((passPackets sampleRing3 2 0 0 0 true false).1.stage 0).input_end =
      true := by decide

/-- C6 (amended): `passPackets` never writes `next(s).aborting`, and
`input_end` OR-propagates to `next(s)` on every edge, including
Output→Input (the output executor itself always passes
`input_end = false` there).  What is special about the Output stage is
the abort back-propagation: only for a non-Output stage is the `aborted`
flag OR-ed with `next(s).aborting`; for the Output stage it is left as
passed.  Correspondingly `waitWork` returns `aborted` as
`next(s).aborting` for every non-Output stage and always `false` for the
Output stage. -/
theorem output_edge_spec {n : Nat} (r : Ring n) (i : Fin n)
    (count bitrate br_confidence : Nat) (input_end aborted : Bool)
    (hne : ringNext i ≠ i) :
    ((passPackets r i count bitrate br_confidence input_end aborted).1.stage
        (ringNext i)).tsp_aborting = (r.stage (ringNext i)).tsp_aborting ∧
    ((passPackets r i count bitrate br_confidence input_end aborted).1.stage
        (ringNext i)).input_end
      = ((r.stage (ringNext i)).input_end || input_end) ∧
    (r.ptype i = PluginType.output →
      effAborted r i aborted = aborted ∧
      (passPackets r i count bitrate br_confidence input_end aborted).2 =
        (!input_end && !aborted)) ∧
    (r.ptype i ≠ PluginType.output →
      effAborted r i aborted =
        (aborted || (r.stage (ringNext i)).tsp_aborting)) ∧
    (r.ptype i = PluginType.output →
      ∀ min_pkt_cnt timedOut,
        (waitWork r i min_pkt_cnt timedOut).aborted = false) ∧
    (r.ptype i ≠ PluginType.output →
      ∀ min_pkt_cnt timedOut,
        (waitWork r i min_pkt_cnt timedOut).aborted =
          (r.stage (ringNext i)).tsp_aborting) := by
  refine ⟨?_, ?_, ?_, ?_, ?_, ?_⟩
  · rw [passPackets_stage_next r i count bitrate br_confidence input_end
      aborted hne]
  · rw [passPackets_stage_next r i count bitrate br_confidence input_end
      aborted hne]
  · intro hout
    have heff : effAborted r i aborted = aborted := by
      rw [effAborted, if_neg (by simp [hout])]
    refine ⟨heff, ?_⟩
    rw [passPackets_snd r i count bitrate br_confidence input_end aborted,
      heff]
  · intro hnout
    rw [effAborted, if_pos hnout]
  · intro hout min_pkt_cnt timedOut
    show (decide (r.ptype i ≠ PluginType.output) && _) = false
    simp [hout]
  · intro hnout min_pkt_cnt timedOut
    show (decide (r.ptype i ≠ PluginType.output) && _) = _
    simp [hnout]

/-- Witness for the amended C6: the Output stage of the concrete ring
calls `passPackets` while the Input stage is aborting; the return value
ignores Input's aborting flag, and `waitWork` reports `aborted = false`
to the Output stage. -/
theorem output_edge_spec_witness :
    (passPackets (setAbort sampleRing3 0) 2 0 0 0 false false).2 =
      (!false && !false) ∧
    (waitWork (setAbort sampleRing3 0) 2 1 false).aborted = false :=
  ⟨((output_edge_spec (setAbort sampleRing3 0) 2 0 0 0 false false
      (by decide)).2.2.1 (by decide)).2,
   (output_edge_spec (setAbort sampleRing3 0) 2 0 0 0 false false
      (by decide)).2.2.2.2.1 (by decide) 1 false⟩

/-- The plugin's responses during a restart, with argument vectors
modelled as lists of opaque tokens: whether `analyze(name, args, false)`,
`getOptions()` and `start()` succeed once the plugin has been given a
particular argument vector, and the previously saved arguments returned
by `plugin()->getCommandArgs(previous_args)`. -/
structure PluginRestartModel where
  analyzeOk : List Nat → Bool
  getOptionsOk : List Nat → Bool
  startOk : List Nat → Bool
  prevArgs : List Nat

/-- The observable outcome of the argument-handling part of
`processPendingRestart`: the final success status, whether a warning was
written to the restart record's report, and the argument vectors passed
to `analyze` in order. -/
structure RestartOutcome where
  success : Bool
  warned : Bool
  attempts : List (List Nat)
deriving DecidableEq, Repr

/-- `success = plugin()->analyze(pluginName(), args, false) &&
plugin()->getOptions() && plugin()->start()` after configuring the
plugin with `args`. -/
def tryStartSequence (p : PluginRestartModel) (args : List Nat) : Bool :=
  p.analyzeOk args && p.getOptionsOk args && p.startOk args

/-- The `same_args == false` branch of
`ts::tsp::PluginExecutor::processPendingRestart`, translated from the
code: save the previous arguments, try `analyze + getOptions + start`
with the new arguments; on failure, warn through the restart record's
report and retry the same sequence with the previous arguments. -/
def processRestartNewArgs (p : PluginRestartModel) (newArgs : List Nat) :
    RestartOutcome :=
  -- UStringVector previous_args; plugin()->getCommandArgs(previous_args);
  let previous_args := p.prevArgs
  -- success = plugin()->analyze(...) && plugin()->getOptions() &&
  --           plugin()->start();
  let success := tryStartSequence p newArgs
  if success then
    { success := true, warned := false, attempts := [newArgs] }
  else
    -- _restart_data->report.warning(u"failed to restart plugin %s, ...");
    -- success = plugin()->analyze(...) && ... && plugin()->start();
    { success := tryStartSequence p previous_args, warned := true,
      attempts := [newArgs, previous_args] }

/-- C7: during a pending restart with new arguments, if
`analyze + getOptions + start` fails with the new arguments, the worker
warns through the restart record's report sink and retries the same
`analyze + getOptions + start` sequence with the previously saved
arguments, whose result becomes the restart's success status. -/
theorem restart_fallback_spec (p : PluginRestartModel) (newArgs : List Nat)
    (hfail : tryStartSequence p newArgs = false) :
    (processRestartNewArgs p newArgs).warned = true ∧
    (processRestartNewArgs p newArgs).attempts = [newArgs, p.prevArgs] ∧
    (processRestartNewArgs p newArgs).success =
      tryStartSequence p p.prevArgs := by
  rw [processRestartNewArgs]
  simp [hfail]

/-- A concrete restart model: analysis succeeds only on the saved
previous arguments `[1]`; the new arguments `[2]` fail. -/
def sampleRestartModel : PluginRestartModel :=
  { analyzeOk := fun args => decide (args = [1]),
    getOptionsOk := fun _ => true,
    startOk := fun _ => true,
    prevArgs := [1] }

/-- Witness for C7: restarting with the failing new arguments `[2]`
warns and falls back to the previous arguments `[1]`, which succeed. -/
theorem restart_fallback_spec_witness :
    (processRestartNewArgs sampleRestartModel [2]).warned = true ∧
    (processRestartNewArgs sampleRestartModel [2]).attempts =
      [[2], sampleRestartModel.prevArgs] ∧
    (processRestartNewArgs sampleRestartModel [2]).success =
      tryStartSequence sampleRestartModel sampleRestartModel.prevArgs :=
  restart_fallback_spec sampleRestartModel [2] (by decide)

/-! ### Bitrate monitor plugin (`ts::BitrateMonitorPlugin`) -/

/-- `ts::NanoSecPerSec`. -/
def NanoSecPerSec : Nat := 1000000000

/-- `ts::NanoSecPerMicroSec`. -/
def NanoSecPerMicroSec : Nat := 1000

/-- `ts::MicroSecPerSec`. -/
def MicroSecPerSec : Nat := 1000000

/-- `ts::PKT_SIZE_BITS`: 188 bytes × 8 = 1504 bits per TS packet. -/
def PKT_SIZE_BITS : Nat := 1504

/-- `ts::BitrateMonitorPlugin::Period`: what is received during
approximately one second.  `duration` is in nanoseconds; durations come
from differences of a monotonic clock and are therefore non-negative,
so they are modelled as `Nat`. -/
structure Period where
  duration : Nat
  packets : Nat
  non_null : Nat
deriving DecidableEq, Repr

/-- In-place update of one list element (`_periods[i] = ...`). -/
def listModify {α : Type} (f : α → α) : Nat → List α → List α
  | _, [] => []
  | 0, a :: l => f a :: l
  | n + 1, a :: l => a :: listModify f n l

/-- The working data of the plugin that the windowing logic touches:
the bucket array, the current bucket index, the startup flag and the
monotonic time of the last measurement point (in nanoseconds). -/
structure BMState where
  periods : List Period
  periods_index : Nat
  startup : Bool
  last_second : Nat
deriving DecidableEq, Repr

/-- `ts::BitrateMonitorPlugin::computeBitrate()`, reduced to the value it
computes: sum the bucket durations and packet counts, convert the total
duration from nanoseconds to microseconds by integer division (the code
avoids nanoseconds "which may lead to overflows"), and divide.  Modelled
from the spec for the `BitRate` type, which is not part of the sources:
its arithmetic is exact integer/rational arithmetic, so the value lives
in `ℚ`.  (The alarm/label bookkeeping of `computeBitrate` is independent
of the computed value and is not modelled.) -/
def computeBitrate (ps : List Period) : ℚ :=
  let durationNs := (ps.map Period.duration).sum
  let total_pkt_count := (ps.map Period.packets).sum
  let duration := durationNs / NanoSecPerMicroSec
  if 0 < duration then
    ((total_pkt_count : ℚ) * (PKT_SIZE_BITS : ℚ) * (MicroSecPerSec : ℚ)) /
      (duration : ℚ)
  else 0

/-- `ts::BitrateMonitorPlugin::checkTime()` at monotonic instant `now`
(nanoseconds): on a second boundary, record the exact duration of the
elapsed period, compute the bitrate unless still at startup, advance and
clear the bucket index, and leave startup once the index cycles.
Returns the new state and the computed bitrate, if any. -/
def checkTime (st : BMState) (now : Nat) : BMState × Option ℚ :=
  let since_last_second := now - st.last_second
  if NanoSecPerSec ≤ since_last_second then
    -- _periods[_periods_index].duration = since_last_second;
    let ps1 := listModify (fun p => { p with duration := since_last_second })
      st.periods_index st.periods
    -- if (!_startup) { computeBitrate(); }
    let result := if st.startup then none else some (computeBitrate ps1)
    -- _periods_index = (_periods_index + 1) % _periods.size();
    let idx := (st.periods_index + 1) % ps1.length
    -- _periods[_periods_index].clear();
    let ps2 := listModify (fun _ => Period.mk 0 0 0) idx ps1
    -- if (_startup) { _startup = _periods_index != 0; }
    let startup1 := if st.startup then decide (idx ≠ 0) else st.startup
    ({ periods := ps2, periods_index := idx, startup := startup1,
       last_second := now }, result)
  else (st, none)

/-- The working data installed by `ts::BitrateMonitorPlugin::start()` for
a window of `w` one-second buckets at monotonic instant `t0`. -/
def startState (w t0 : Nat) : BMState :=
  { periods := List.replicate w (Period.mk 0 0 0), periods_index := 0,
    startup := true, last_second := t0 }

/-- One guaranteed second-boundary crossing: `checkTime` exactly one
second after the last measurement point. -/
def crossSecond (st : BMState) : BMState :=
  (checkTime st (st.last_second + NanoSecPerSec)).1

/-- The claim-side bitrate formula: (Σ packets × 1504 bits) divided by
the total duration, the duration being given in microseconds and the
result in bits per second; 0 when the total duration is 0. -/
def specBitrateFormula (totalPackets durationUs : Nat) : ℚ :=
  if durationUs = 0 then 0
  else ((totalPackets : ℚ) * 1504 * 1000000) / (durationUs : ℚ)

theorem listModify_length {α : Type} (f : α → α) (n : Nat) (l : List α) :
    (listModify f n l).length = l.length := by
  induction l generalizing n with
  | nil => cases n <;> rfl
  | cons a l ih =>
    cases n with
    | zero => rfl
    | succ m => simpa [listModify] using ih m

/-- Evaluation of the bitrate output of `checkTime`. -/
theorem checkTime_snd (st : BMState) (now : Nat) :
    (checkTime st now).2 =
      if NanoSecPerSec ≤ now - st.last_second then
        (if st.startup then none
         else some (computeBitrate
           (listModify (fun p => { p with duration := now - st.last_second })
             st.periods_index st.periods)))
      else none := by
  by_cases hc : NanoSecPerSec ≤ now - st.last_second <;> simp [checkTime, hc]

/-- Evaluation of one guaranteed second-boundary crossing. -/
theorem crossSecond_eval (st : BMState) :
    crossSecond st =
      { periods := listModify (fun _ => Period.mk 0 0 0)
          ((st.periods_index + 1) % st.periods.length)
          (listModify (fun p => { p with duration := NanoSecPerSec })
            st.periods_index st.periods),
        periods_index := (st.periods_index + 1) % st.periods.length,
        startup := if st.startup then
            decide ((st.periods_index + 1) % st.periods.length ≠ 0)
          else st.startup,
        last_second := st.last_second + NanoSecPerSec } := by
  simp [crossSecond, checkTime, Nat.add_sub_cancel_left, listModify_length]

/-- After `j` second-boundary crossings from the `start()` state, the
bucket index is `j mod w` and the plugin is still at startup exactly
when fewer than `w` crossings have happened (the window is not yet
completely filled). -/
theorem crossSecond_iterate (w t0 : Nat) (hw : 0 < w) (j : Nat) :
    ((crossSecond^[j]) (startState w t0)).periods.length = w ∧
    ((crossSecond^[j]) (startState w t0)).periods_index = j % w ∧
    ((crossSecond^[j]) (startState w t0)).startup = decide (j < w) := by
  induction j with
  | zero =>
    refine ⟨by simp [startState], by simp [startState], ?_⟩
    show (startState w t0).startup = decide (0 < w)
    simp [startState, hw]
  | succ j ih =>
    obtain ⟨hl, hi, hs⟩ := ih
    rw [Function.iterate_succ_apply', crossSecond_eval]
    refine ⟨?_, ?_, ?_⟩
    · simp [listModify_length, hl]
    · simp only [hi, hl, Nat.mod_add_mod]
    · simp only [hi, hl, hs]
      by_cases h : j < w
      · rw [if_pos (decide_eq_true h)]
        have hjj : j % w = j := Nat.mod_eq_of_lt h
        rcases Nat.lt_or_ge (j + 1) w with h1 | h1
        · have h2 : (j % w + 1) % w = j + 1 := by
            rw [hjj]
            exact Nat.mod_eq_of_lt h1
          have h3 : j + 1 ≠ 0 := by omega
          rw [h2]
          simp [h1, h3]
        · have hjw : j + 1 = w := by omega
          have h2 : (j % w + 1) % w = 0 := by rw [hjj, hjw, Nat.mod_self]
          have h3 : ¬ (j + 1 < w) := by omega
          rw [h2]
          simp [h3]
      · rw [if_neg (by simpa using h)]
        have h2 : ¬ (j + 1 < w) := by omega
        simp [h, h2]

/-- The value computed by `computeBitrate` matches the claim-side
formula from the spec. -/
theorem computeBitrate_eq_spec (ps : List Period) :
    computeBitrate ps = specBitrateFormula ((ps.map Period.packets).sum)
      ((ps.map Period.duration).sum / NanoSecPerMicroSec) := by
  unfold computeBitrate specBitrateFormula
  by_cases hd : (ps.map Period.duration).sum / NanoSecPerMicroSec = 0
  · simp [hd]
  · rw [if_pos (Nat.pos_of_ne_zero hd), if_neg hd]
    norm_num [PKT_SIZE_BITS, MicroSecPerSec]

/-- C8: `checkTime` computes a bitrate exactly at a second boundary of
the monotonic clock and only once the window of one-second buckets has
been completely filled after start (the startup flag holds until the
bucket index cycles, i.e. for the first `w` boundary crossings), and the
computed value equals (Σ packets × 1504 bits) divided by the total
bucket duration converted to microseconds, in exact rational arithmetic,
with value 0 when the total duration is 0. -/
theorem bitrate_monitor_spec :
    (∀ (st : BMState) (now : Nat),
      (checkTime st now).2.isSome = true ↔
        (NanoSecPerSec ≤ now - st.last_second ∧ st.startup = false)) ∧
    (∀ (st : BMState) (now : Nat) (q : ℚ), (checkTime st now).2 = some q →
      q = specBitrateFormula
        (((listModify (fun p => { p with duration := now - st.last_second })
            st.periods_index st.periods).map Period.packets).sum)
        ((((listModify (fun p => { p with duration := now - st.last_second })
            st.periods_index st.periods).map Period.duration).sum) /
          NanoSecPerMicroSec)) ∧
    (∀ w t0 j : Nat, 0 < w →
      ((crossSecond^[j]) (startState w t0)).startup = decide (j < w)) := by
  refine ⟨?_, ?_, ?_⟩
  · intro st now
    rw [checkTime_snd]
    by_cases hc : NanoSecPerSec ≤ now - st.last_second <;>
      rcases hs : st.startup with _ | _ <;> simp [hc, hs]
  · intro st now q hq
    rw [checkTime_snd] at hq
    by_cases hc : NanoSecPerSec ≤ now - st.last_second
    · rw [if_pos hc] at hq
      rcases hs : st.startup with _ | _
      · rw [hs, if_neg (by simp)] at hq
        rw [← Option.some_inj.1 hq, computeBitrate_eq_spec]
      · rw [hs, if_pos rfl] at hq
        exact absurd hq (by simp)
    · rw [if_neg hc] at hq
      exact absurd hq (by simp)
  · intro w t0 j hw
    exact (crossSecond_iterate w t0 hw j).2.2

/-- Witness for C8: after 3 boundary crossings of a 2-bucket window the
startup phase is over, and a concrete `checkTime` call past startup with
100 packets over 2 seconds yields 75200 b/s = 100 × 1504 / 2. -/
theorem bitrate_monitor_spec_witness :
    ((crossSecond^[3]) (startState 2 0)).startup = decide (3 < 2) ∧
    (75200 : ℚ) = specBitrateFormula 100 2000000 := by
  constructor
  · exact bitrate_monitor_spec.2.2 2 0 3 (by decide)
  · have h := bitrate_monitor_spec.2.1
      (BMState.mk [Period.mk 0 100 90] 0 false 0) (2 * NanoSecPerSec)
      (75200 : ℚ)
      (by norm_num [checkTime, computeBitrate, listModify, NanoSecPerSec,
        NanoSecPerMicroSec, PKT_SIZE_BITS, MicroSecPerSec])
    simpa [listModify, NanoSecPerSec, NanoSecPerMicroSec] using h

/-! ### Logical channel number store (`ts::LogicalChannelNumbers`) -/

/-- The value type of the multimap `_lcn_map`
(`ts::LogicalChannelNumbers::LCN`). -/
structure LCN where
  lcn : Nat
  ts_id : Nat
  onet_id : Nat
  visible : Bool
deriving DecidableEq, Repr

/-- The scan of `ts::LogicalChannelNumbers::findLCN(srv_id, ts_id,
onet_id)` over the entries whose key equals `srv_id`, in order, carrying
the `result` iterator: an entry with matching `ts_id` is returned at
once if its `onet_id` matches exactly; otherwise it is kept as the
current fallback `result` only when its stored `onet_id` equals `0xFFF`,
and the scan continues looking for an exact match.  The store is
modelled as the list of (service id, LCN record) pairs in multimap
order. -/
def findLCNAux (srv_id ts_id onet_id : Nat) :
    List (Nat × LCN) → Option LCN → Option LCN
  | [], result => result
  | e :: rest, result =>
    if e.1 = srv_id ∧ e.2.ts_id = ts_id then
      if e.2.onet_id = onet_id then some e.2
      else if e.2.onet_id = 0xFFF then
        findLCNAux srv_id ts_id onet_id rest (some e.2)
      else findLCNAux srv_id ts_id onet_id rest result
    else findLCNAux srv_id ts_id onet_id rest result

/-- `ts::LogicalChannelNumbers::findLCN`: `result` starts at
`_lcn_map.end()`, modelled as `none`. -/
def findLCN (store : List (Nat × LCN)) (srv_id ts_id onet_id : Nat) :
    Option LCN :=
  findLCNAux srv_id ts_id onet_id store none

theorem findLCNAux_onet (srv_id ts_id onet_id : Nat) (l : List (Nat × LCN))
    (acc : Option LCN)
    (hacc : ∀ a, acc = some a → a.onet_id = onet_id ∨ a.onet_id = 0xFFF) :
    ∀ e, findLCNAux srv_id ts_id onet_id l acc = some e →
      e.onet_id = onet_id ∨ e.onet_id = 0xFFF := by
  induction l generalizing acc with
  | nil =>
    intro e he
    exact hacc e he
  | cons p rest ih =>
    intro e he
    rw [findLCNAux] at he
    by_cases hmatch : p.1 = srv_id ∧ p.2.ts_id = ts_id
    · rw [if_pos hmatch] at he
      by_cases honet : p.2.onet_id = onet_id
      · rw [if_pos honet] at he
        exact Or.inl (Option.some_inj.1 he ▸ honet)
      · rw [if_neg honet] at he
        by_cases hfff : p.2.onet_id = 0xFFF
        · rw [if_pos hfff] at he
          refine ih (some p.2) ?_ e he
          intro a ha
          exact Or.inr (Option.some_inj.1 ha ▸ hfff)
        · rw [if_neg hfff] at he
          exact ih acc hacc e he
    · rw [if_neg hmatch] at he
      exact ih acc hacc e he

/-- C9: any entry returned by `findLCN` either matches the requested
original network id exactly or has the stored value `0xFFF` — not the
documented "unspecified" value `0xFFFF` —, so an entry whose stored
`onet_id` is `0xFFFF` is never returned when the query's `onet_id` is a
different value. -/
theorem findLCN_fallback_onet (store : List (Nat × LCN))
    (srv_id ts_id onet_id : Nat) :
    (∀ e, findLCN store srv_id ts_id onet_id = some e →
      e.onet_id = onet_id ∨ e.onet_id = 0xFFF) ∧
    (∀ e, e.onet_id = 0xFFFF → onet_id ≠ 0xFFFF →
      findLCN store srv_id ts_id onet_id ≠ some e) := by
  have hmain := findLCNAux_onet srv_id ts_id onet_id store none
    (fun a ha => absurd ha (by simp))
  refine ⟨hmain, ?_⟩
  intro e he honet hfind
  rcases hmain e hfind with h | h
  · exact honet (by omega)
  · omega

/-- Witness for C9: a store holding the single entry
`(srv 5, lcn 10, ts 7, onet 0xFFFF)` queried with `onet_id = 3` returns
nothing: the `0xFFFF` entry is not used as a fallback. -/
theorem findLCN_fallback_onet_witness :
    findLCN [(5, LCN.mk 10 7 0xFFFF true)] 5 7 3 ≠
      some (LCN.mk 10 7 0xFFFF true) :=
  (findLCN_fallback_onet [(5, LCN.mk 10 7 0xFFFF true)] 5 7 3).2
    (LCN.mk 10 7 0xFFFF true) rfl (by decide)

end TSDuck
